import Mathlib

/-!
Shallow embedding of the merge-queue orchestrator scripts
(`.github/scripts/merge_queue/` and `.github/scripts/common/gh_utils.py`)
and proofs about the claims of the specification.

Python integers are modelled as `Int`, strings as `String`, parsed
timestamps as `Int` (any linearly ordered stand-in for `datetime` works,
since the scripts only compare timestamps), and fallible parses as
`Option`.  External platform calls (GitHub CLI) are modelled by explicit
input data or oracle functions passed to the embedded functions.
-/

namespace MergeQueue

/-- A substring test on character lists: `charsPrefix n h` holds when `n`
is an initial segment of `h`.  Models Python's `str.startswith`. -/
def charsPrefix : List Char → List Char → Bool
  | [], _ => true
  | _ :: _, [] => false
  | a :: as, b :: bs => a == b && charsPrefix as bs

/-- `charsSub n h` holds when `n` occurs contiguously inside `h`.
Models Python's `needle in hay`. -/
def charsSub : List Char → List Char → Bool
  | n, [] => n.isEmpty
  | n, c :: cs => charsPrefix n (c :: cs) || charsSub n cs

/-- Python `needle in hay` on strings. -/
def strHasSub (hay needle : String) : Bool :=
  charsSub needle.data hay.data

/-- Python `hay.startswith(needle)` on strings. -/
def strStarts (hay needle : String) : Bool :=
  charsPrefix needle.data hay.data

/-- Python `s.strip()`, as the character list of the result. -/
def pyStrip (s : String) : List Char :=
  ((s.data.dropWhile Char.isWhitespace).reverse.dropWhile Char.isWhitespace).reverse

/-- Value of a decimal digit run. -/
def digitsVal (ds : List Char) : Int :=
  Int.ofNat (ds.foldl (fun acc d => acc * 10 + (d.toNat - 48)) 0)

/-- Python `int(s)` on a stripped character list: optional sign followed
by decimal digits; `none` models the `ValueError` branch. -/
def pythonIntAux : List Char → Option Int
  | [] => none
  | '-' :: ds =>
      if ds ≠ [] ∧ ds.all Char.isDigit then some (-digitsVal ds) else none
  | '+' :: ds =>
      if ds ≠ [] ∧ ds.all Char.isDigit then some (digitsVal ds) else none
  | d :: ds =>
      if (d :: ds).all Char.isDigit then some (digitsVal (d :: ds)) else none

/-- Python `int(s)` (which strips surrounding whitespace itself). -/
def pythonInt (s : String) : Option Int :=
  pythonIntAux (pyStrip s)

/-!
## `merge_prs_sequentially.py`

`parse_mergeable_prs` receives the JSON string of PR numbers; the JSON
decode plus the `int()` conversion of each element is modelled by an
`Option (List Int)` input (`none` = `JSONDecodeError`/`ValueError`, both
of which make the function return `[]`).  Python's `sorted` on integers
is modelled by `List.insertionSort (· ≤ ·)` (extensionally equal on
integer lists).
-/

/-- `parse_mergeable_prs`: parse and sort mergeable PRs; on a parse
error return `[]`. -/
def parse_mergeable_prs : Option (List Int) → List Int
  | none => []
  | some prs => prs.insertionSort (· ≤ ·)

/-- Result of the per-PR steps of the merge loop, as decided by the
external platform/CI: which of the mutually exclusive exits of one
iteration of `main`'s loop is taken. -/
inductive StepOutcome
  | updateFailed    -- `update_pr_branch` returned False
  | triggerFailed   -- `trigger_ci_and_get_timestamp` returned ""
  | startupTimeout  -- `wait_for_ci_job_started_comment` returned ""
  | ciFailed        -- `wait_for_workflow_run_completion` = "failed"
  | ciTimeout       -- `wait_for_workflow_run_completion` = "timeout"
  | mergeFailed     -- `merge_pr` returned False
  | mergedOk        -- `merge_pr` returned True
  deriving DecidableEq, Repr

/-- The six outcome buckets tracked by `merge_prs_sequentially.main`. -/
structure Buckets where
  merged : List Int
  failed_update : List Int
  failed_ci : List Int
  timeout : List Int
  failed_merge : List Int
  startup_timeout : List Int
  deriving DecidableEq, Repr

def Buckets.empty : Buckets := ⟨[], [], [], [], [], []⟩

/-- The body of `main`'s loop over the sorted PR list: each PR lands in
exactly the bucket chosen by its step outcome (CI-trigger failure is
recorded in `failed_update`, as in the source).  `oracle` abstracts the
platform's responses for a given PR. -/
def mergeLoop (oracle : Int → StepOutcome) : List Int → Buckets
  | [] => Buckets.empty
  | pr :: rest =>
    let b := mergeLoop oracle rest
    match oracle pr with
    | .updateFailed => { b with failed_update := pr :: b.failed_update }
    | .triggerFailed => { b with failed_update := pr :: b.failed_update }
    | .startupTimeout => { b with startup_timeout := pr :: b.startup_timeout }
    | .ciFailed => { b with failed_ci := pr :: b.failed_ci }
    | .ciTimeout => { b with timeout := pr :: b.timeout }
    | .mergeFailed => { b with failed_merge := pr :: b.failed_merge }
    | .mergedOk => { b with merged := pr :: b.merged }

/-- `merge_prs_sequentially.main`, restricted to its loop: the PR list
it iterates (in order) and the outcome buckets.  The attempt order is
the first component: the loop visits exactly `parse_mergeable_prs` of
the input, front to back. -/
def merge_prs_main (oracle : Int → StepOutcome) (input : Option (List Int)) :
    List Int × Buckets :=
  let prs := parse_mergeable_prs input
  (prs, mergeLoop oracle prs)

/-- A PR list sorted weakly ascending and without duplicates is sorted
strictly ascending. -/
theorem parse_sorted (input : Option (List Int)) :
    (parse_mergeable_prs input).Sorted (· ≤ ·) := by
  cases input with
  | none => simp [parse_mergeable_prs]
  | some l => exact List.sorted_insertionSort _ l

theorem parse_perm (l : List Int) :
    (parse_mergeable_prs (some l)).Perm l :=
  List.perm_insertionSort _ l

/-- C1: for every list of mergeable candidate identifiers, the merge
pipeline attempts the per-candidate steps in strictly ascending
identifier order, and the attempt order does not depend on the order of
the input list. -/
theorem merge_attempts_strictly_ascending (oracle : Int → StepOutcome)
    (l l' : List Int) (hnd : l.Nodup) (hperm : l.Perm l') :
    (merge_prs_main oracle (some l)).1.Sorted (· < ·) ∧
      (merge_prs_main oracle (some l')).1 = (merge_prs_main oracle (some l)).1 := by
  constructor
  · exact (parse_sorted (some l)).lt_of_le ((parse_perm l).nodup_iff.mpr hnd)
  · exact List.eq_of_perm_of_sorted
      ((parse_perm l').trans (hperm.symm.trans (parse_perm l).symm))
      (parse_sorted (some l')) (parse_sorted (some l))

/-- Witness for `merge_attempts_strictly_ascending` at the concrete
input `[30, 10, 20]` and a reordering of it. -/
theorem merge_attempts_strictly_ascending_witness :
    (merge_prs_main (fun _ => StepOutcome.mergedOk) (some [30, 10, 20])).1.Sorted (· < ·) ∧
      (merge_prs_main (fun _ => StepOutcome.mergedOk) (some [20, 30, 10])).1 =
        (merge_prs_main (fun _ => StepOutcome.mergedOk) (some [30, 10, 20])).1 :=
  merge_attempts_strictly_ascending (fun _ => StepOutcome.mergedOk)
    [30, 10, 20] [20, 30, 10] (by decide) (by decide)

/-!
## `validate_prs.py`

The PR snapshot returned by `get_pr_info` (the `gh pr view` projection
`baseRefName,mergeable,headRefName,reviews,statusCheckRollup,state,author`)
is modelled by `PRInfo`; a review is represented by its `state` field and
a status check by its `context` and `state` fields, the only fields the
validator reads.
-/

/-- One entry of the status-check rollup (`context`, `state`). -/
structure Check where
  context : String
  state : String
  deriving DecidableEq, Repr

/-- The candidate snapshot consumed by `validate_pr`. -/
structure PRInfo where
  baseRefName : String
  mergeable : String
  state : String
  reviews : List String          -- review `state` fields
  statusCheckRollup : List Check
  author : String
  deriving DecidableEq, Repr

/-- `count_approvals`: count reviews whose state is `APPROVED`. -/
def count_approvals (reviews : List String) : Int :=
  Int.ofNat (reviews.countP (· == "APPROVED"))

/-- `get_failing_checks`: the `context:state` strings of rollup entries
whose state is not `SUCCESS`. -/
def get_failing_checks (status_checks : List Check) : List String :=
  (status_checks.filter (fun c => c.state ≠ "SUCCESS")).map
    (fun c => c.context ++ ":" ++ c.state)

/-- `validate_pr` on an available snapshot: returns
`(is_mergeable, reasons_for_failure)`.  A non-open PR short-circuits
with a single reason; otherwise the four reasons accumulate in source
order and the PR is mergeable iff none was produced. -/
def validate_pr (info : PRInfo) (required_approvals : Int)
    (default_branch : String) : Bool × List String :=
  if info.state ≠ "OPEN" then
    (false, ["PR is not open (state: " ++ info.state ++ ")"])
  else
    let approval_count := count_approvals info.reviews
    let failing_checks := get_failing_checks info.statusCheckRollup
    let failure_reasons : List String :=
      (if info.baseRefName ≠ default_branch then
        ["Does not target '" ++ default_branch ++ "' (targets '" ++
          info.baseRefName ++ "') - all PRs must target the default branch '" ++
          default_branch ++ "'"]
      else []) ++
      (if info.mergeable = "CONFLICTING" then
        ["Has merge conflicts (state=" ++ info.mergeable ++ ")"]
      else []) ++
      (if approval_count < required_approvals then
        ["Has " ++ toString approval_count ++ " approvals, but " ++
          toString required_approvals ++ " are required"]
      else []) ++
      (if failing_checks ≠ [] then
        ["Has failing/missing checks: " ++ String.intercalate ", " failing_checks]
      else [])
    if failure_reasons.isEmpty then (true, []) else (false, failure_reasons)

/-- C2: a snapshot is classified mergeable iff it is OPEN, targets the
default branch, is not CONFLICTING, has at least the required number of
APPROVED reviews, and every rollup entry is SUCCESS; otherwise it is
classified unmergeable with at least one reason string. -/
theorem validate_pr_mergeable_iff (info : PRInfo) (required_approvals : Int)
    (default_branch : String) :
    ((validate_pr info required_approvals default_branch).1 = true ↔
      (info.state = "OPEN" ∧ info.baseRefName = default_branch ∧
        info.mergeable ≠ "CONFLICTING" ∧
        required_approvals ≤ count_approvals info.reviews ∧
        ∀ c ∈ info.statusCheckRollup, c.state = "SUCCESS")) ∧
    ((validate_pr info required_approvals default_branch).1 = false →
      (validate_pr info required_approvals default_branch).2 ≠ []) := by
  have hfail : get_failing_checks info.statusCheckRollup = [] ↔
      ∀ c ∈ info.statusCheckRollup, c.state = "SUCCESS" := by
    simp [get_failing_checks, List.filter_eq_nil_iff]
  unfold validate_pr
  by_cases h1 : info.state = "OPEN" <;>
    by_cases h2 : info.baseRefName = default_branch <;>
      by_cases h3 : info.mergeable = "CONFLICTING" <;>
        by_cases h4 : count_approvals info.reviews < required_approvals <;>
          by_cases h5 : get_failing_checks info.statusCheckRollup = [] <;>
            simp_all [not_lt, le_of_lt]

/-- Witness for `validate_pr_mergeable_iff` at a concrete closed PR
snapshot: it is classified unmergeable with a nonempty reason list. -/
theorem validate_pr_mergeable_iff_witness :
    (validate_pr ⟨"main", "MERGEABLE", "CLOSED", [], [], "alice"⟩ 1 "main").2 ≠ [] :=
  (validate_pr_mergeable_iff ⟨"main", "MERGEABLE", "CLOSED", [], [], "alice"⟩ 1 "main").2
    (by decide)

/-!
## Comment signals

A comment as returned by `gh issue view --json comments` / `gh pr view
--json comments`: `id`, `author.login`, `body`, `createdAt`.  The
`createdAt` field carries the result of `parse_iso_timestamp` /
`parse_iso_datetime` (`none` = missing or unparseable); the scripts only
ever compare parsed timestamps, so a linearly ordered `Int` models
`datetime`.
-/

structure GComment where
  id : String
  author : String
  body : String
  createdAt : Option Int
  deriving DecidableEq, Repr

/-- `wait_for_approval.get_comments_after_timestamp`: keep exactly the
comments with a parseable timestamp strictly greater than the trigger
timestamp, dropping the automation identity; an unparseable trigger
yields `[]`. -/
def get_comments_after_timestamp (trigger : Option Int)
    (comments : List GComment) : List GComment :=
  match trigger with
  | none => []
  | some trigger_dt =>
    comments.filter (fun c =>
      match c.createdAt with
      | none => false
      | some t => trigger_dt < t && c.author != "github-actions[bot]")

/-- The search `re.search(r'actions/runs/(\d+)', body)` on the comment
body: leftmost occurrence of the literal followed by at least one
digit; returns the digit group. -/
def runIdDigits : List Char → Option (List Char)
  | [] => none
  | c :: cs =>
    if charsPrefix "actions/runs/".data (c :: cs) then
      let after := (c :: cs).drop "actions/runs/".data.length
      let ds := after.takeWhile Char.isDigit
      if ds.isEmpty then runIdDigits cs else some ds
    else runIdDigits cs

def extractRunId (body : String) : Option String :=
  (runIdDigits body.data).map (fun ds => String.mk ds)

/-- One poll of `merge_prs_sequentially.wait_for_ci_job_started_comment`
over the current comment list: skip comments with unparseable
timestamps, skip comments created at or before the trigger, and return
the run id of the first remaining comment whose body contains
`"CI job started"` and `"actions/runs/"` with a digit run id. -/
def wait_for_ci_scan (trigger_dt : Int) : List GComment → Option String
  | [] => none
  | c :: rest =>
    match c.createdAt with
    | none => wait_for_ci_scan trigger_dt rest
    | some comment_time =>
      if comment_time ≤ trigger_dt then wait_for_ci_scan trigger_dt rest
      else if strHasSub c.body "CI job started" && strHasSub c.body "actions/runs/" then
        match extractRunId c.body with
        | some run_id => some run_id
        | none => wait_for_ci_scan trigger_dt rest
      else wait_for_ci_scan trigger_dt rest

/-- C3: both comment consumers only accept comments whose creation
timestamp is strictly greater than the recorded trigger timestamp; a
comment whose timestamp equals the trigger is never accepted. -/
theorem signals_strictly_after_trigger (comments : List GComment)
    (trigger_dt : Int) :
    (∀ c ∈ get_comments_after_timestamp (some trigger_dt) comments,
      ∃ t, c.createdAt = some t ∧ trigger_dt < t) ∧
    (∀ run_id, wait_for_ci_scan trigger_dt comments = some run_id →
      ∃ c ∈ comments, ∃ t, c.createdAt = some t ∧ trigger_dt < t ∧
        extractRunId c.body = some run_id) := by
  constructor
  · intro c hc
    simp only [get_comments_after_timestamp, List.mem_filter] at hc
    obtain ⟨-, hcond⟩ := hc
    cases h : c.createdAt with
    | none => rw [h] at hcond; simp at hcond
    | some t =>
      rw [h] at hcond
      simp only [Bool.and_eq_true, decide_eq_true_eq] at hcond
      exact ⟨t, rfl, hcond.1⟩
  · intro run_id h
    induction comments with
    | nil => simp [wait_for_ci_scan] at h
    | cons c rest ih =>
      rw [wait_for_ci_scan] at h
      cases hc : c.createdAt with
      | none =>
        rw [hc] at h
        obtain ⟨c', hc', ht⟩ := ih h
        exact ⟨c', List.mem_cons_of_mem _ hc', ht⟩
      | some t =>
        rw [hc] at h
        dsimp only at h
        by_cases hle : t ≤ trigger_dt
        · rw [if_pos hle] at h
          obtain ⟨c', hc', ht⟩ := ih h
          exact ⟨c', List.mem_cons_of_mem _ hc', ht⟩
        · rw [if_neg hle] at h
          by_cases hbody : (strHasSub c.body "CI job started" &&
              strHasSub c.body "actions/runs/") = true
          · rw [if_pos hbody] at h
            cases hex : extractRunId c.body with
            | none =>
              rw [hex] at h
              obtain ⟨c', hc', ht⟩ := ih h
              exact ⟨c', List.mem_cons_of_mem _ hc', ht⟩
            | some rid =>
              rw [hex] at h
              refine ⟨c, List.mem_cons_self _ _, t, hc, by omega, ?_⟩
              rw [hex]
              exact congrArg some (Option.some.inj h)
          · rw [if_neg hbody] at h
            obtain ⟨c', hc', ht⟩ := ih h
            exact ⟨c', List.mem_cons_of_mem _ hc', ht⟩

/-- Witness for `signals_strictly_after_trigger`: a concrete comment
created at time 5 with trigger time 3 is accepted and its run id 42 is
returned with the strictness facts. -/
theorem signals_strictly_after_trigger_witness :
    ∃ c ∈ [(⟨"c1", "bob",
        "CI job started: https://host/o/r/actions/runs/42", some 5⟩ : GComment)],
      ∃ t, c.createdAt = some t ∧ (3 : Int) < t ∧
        extractRunId c.body = some "42" :=
  (signals_strictly_after_trigger
      [⟨"c1", "bob", "CI job started: https://host/o/r/actions/runs/42", some 5⟩]
      3).2 "42" (by decide)

/-- C10: the run id extracted by the CI-start wait does not depend on
comment authors: rewriting every comment's author arbitrarily leaves
the scan result unchanged. -/
theorem run_id_author_independent (trigger_dt : Int)
    (comments : List GComment) (f : GComment → String) :
    wait_for_ci_scan trigger_dt
        (comments.map (fun c => { c with author := f c })) =
      wait_for_ci_scan trigger_dt comments := by
  induction comments with
  | nil => rfl
  | cons c rest ih =>
    simp only [List.map_cons]
    rw [wait_for_ci_scan, wait_for_ci_scan]
    cases c.createdAt with
    | none => exact ih
    | some t =>
      simp only
      split_ifs <;> simp [ih]

/-!
## `wait_for_approval.check_for_approval_or_rejection`

The polling-loop body.  `team` is the resolved member list from the
workflow environment (empty = unavailable), `api` the fallback
`GitHubUtils.is_team_member` membership oracle, and the two warned sets
(`warned_unauthorized_approvals` / `warned_unauthorized_rejections`,
global in the source) are threaded explicitly; warning comments are
modelled as posted successfully.  Besides the state, the embedding
records the `(author, comment id)` pairs for which a warning comment
was posted, in post order.
-/

/-- The effect of Python's `str.lower()` on one character, for the
bodies the controller matches: ASCII uppercase is lowered, everything
else (including the emoji keywords) is unchanged. -/
def lowerChar (c : Char) : Char :=
  if 'A' ≤ c ∧ c ≤ 'Z' then Char.ofNat (c.toNat + 32) else c

/-- Python `body.lower()`. -/
def pyLower (s : String) : String :=
  String.mk (s.data.map lowerChar)

def approval_keywords : List String := ["approved", "👍"]

def rejection_keywords : List String := ["rejected", "👎"]

/-- `any(keyword in body for keyword in keywords)`. -/
def matchesAny (body : String) (kws : List String) : Bool :=
  kws.any (fun k => strHasSub body k)

/-- The dedup key `f"{author}_{comment_id}"`. -/
def commentKey (author id : String) : String :=
  author ++ "_" ++ id

structure CheckResult where
  verdict : Option (String × String)    -- (status, author) of the return
  warnedA : List String                 -- warned_unauthorized_approvals
  warnedR : List String                 -- warned_unauthorized_rejections
  postedA : List (String × String)      -- approval warnings posted
  postedR : List (String × String)      -- rejection warnings posted
  deriving DecidableEq, Repr

/-- The `for comment in comments` loop of
`check_for_approval_or_rejection`, on the already-filtered comments. -/
def check_loop (team : List String) (api : String → Bool) :
    List GComment → List String → List String → CheckResult
  | [], wa, wr => ⟨none, wa, wr, [], []⟩
  | c :: rest, wa, wr =>
    if c.author == "github-actions" then check_loop team api rest wa wr
    else
      let body := (pyLower c.body)
      if matchesAny body approval_keywords then
        if team ≠ [] then
          if team.contains c.author then ⟨some ("approved", c.author), wa, wr, [], []⟩
          else
            let key := commentKey c.author c.id
            if wa.contains key then check_loop team api rest wa wr
            else
              let r := check_loop team api rest (key :: wa) wr
              { r with postedA := (c.author, c.id) :: r.postedA }
        else
          if api c.author then ⟨some ("approved", c.author), wa, wr, [], []⟩
          else
            let key := commentKey c.author c.id
            if wa.contains key then check_loop team api rest wa wr
            else
              let r := check_loop team api rest (key :: wa) wr
              { r with postedA := (c.author, c.id) :: r.postedA }
      else if matchesAny body rejection_keywords then
        if team ≠ [] then
          if team.contains c.author then ⟨some ("rejected", c.author), wa, wr, [], []⟩
          else
            let key := commentKey c.author c.id
            if wr.contains key then check_loop team api rest wa wr
            else
              let r := check_loop team api rest wa (key :: wr)
              { r with postedR := (c.author, c.id) :: r.postedR }
        else
          if api c.author then ⟨some ("rejected", c.author), wa, wr, [], []⟩
          else
            let key := commentKey c.author c.id
            if wr.contains key then check_loop team api rest wa wr
            else
              let r := check_loop team api rest wa (key :: wr)
              { r with postedR := (c.author, c.id) :: r.postedR }
      else check_loop team api rest wa wr

/-- `check_for_approval_or_rejection`: filter the comments by the
trigger timestamp, then scan them. -/
def check_for_approval_or_rejection (team : List String) (api : String → Bool)
    (trigger : Option Int) (allComments : List GComment)
    (wa wr : List String) : CheckResult :=
  check_loop team api (get_comments_after_timestamp trigger allComments) wa wr

/-- Membership as the source checks it: by the resolved member list
when available, otherwise by the membership API. -/
def is_authorized (team : List String) (api : String → Bool) (u : String) : Bool :=
  if team = [] then api u else team.contains u

theorem check_loop_verdict_authorized (team : List String) (api : String → Bool)
    (comments : List GComment) (wa wr : List String) (v u : String)
    (h : (check_loop team api comments wa wr).verdict = some (v, u)) :
    is_authorized team api u = true := by
  induction comments generalizing wa wr with
  | nil => simp [check_loop] at h
  | cons c rest ih =>
    rw [check_loop] at h
    by_cases hbot : (c.author == "github-actions") = true
    · rw [if_pos hbot] at h; exact ih wa wr h
    · rw [if_neg hbot] at h
      dsimp only at h
      by_cases happ : matchesAny (pyLower c.body) approval_keywords = true
      · rw [if_pos happ] at h
        by_cases hteam : team ≠ []
        · rw [if_pos hteam] at h
          by_cases hmem : team.contains c.author = true
          · rw [if_pos hmem] at h
            obtain ⟨-, rfl⟩ := Prod.mk.injEq .. ▸ Option.some.inj h
            simp [is_authorized, hteam, List.elem_iff.mp hmem]
          · rw [if_neg hmem] at h
            split_ifs at h <;> simp_all <;> exact ih _ _ h
        · rw [if_neg hteam] at h
          by_cases hapi : api c.author = true
          · rw [if_pos hapi] at h
            obtain ⟨-, rfl⟩ := Prod.mk.injEq .. ▸ Option.some.inj h
            simp_all [is_authorized]
          · rw [if_neg hapi] at h
            split_ifs at h <;> simp_all <;> exact ih _ _ h
      · rw [if_neg happ] at h
        by_cases hrej : matchesAny (pyLower c.body) rejection_keywords = true
        · rw [if_pos hrej] at h
          by_cases hteam : team ≠ []
          · rw [if_pos hteam] at h
            by_cases hmem : team.contains c.author = true
            · rw [if_pos hmem] at h
              obtain ⟨-, rfl⟩ := Prod.mk.injEq .. ▸ Option.some.inj h
              simp [is_authorized, hteam, List.elem_iff.mp hmem]
            · rw [if_neg hmem] at h
              split_ifs at h <;> simp_all <;> exact ih _ _ h
          · rw [if_neg hteam] at h
            by_cases hapi : api c.author = true
            · rw [if_pos hapi] at h
              obtain ⟨-, rfl⟩ := Prod.mk.injEq .. ▸ Option.some.inj h
              simp_all [is_authorized]
            · rw [if_neg hapi] at h
              split_ifs at h <;> simp_all <;> exact ih _ _ h
        · rw [if_neg hrej] at h
          exact ih wa wr h

theorem contains_false_not_mem {l : List String} {a : String}
    (h : l.contains a = false) : a ∉ l := by
  intro hin
  rw [show l.contains a = l.elem a from rfl, List.elem_iff.mpr hin] at h
  exact Bool.true_eq_false.mp h

theorem check_loop_postedA_inv (team : List String) (api : String → Bool)
    (comments : List GComment) :
    ∀ wa wr : List String,
      ((check_loop team api comments wa wr).postedA.map
        (fun p => commentKey p.1 p.2)).Nodup ∧
      ∀ p ∈ (check_loop team api comments wa wr).postedA,
        commentKey p.1 p.2 ∉ wa ∧
        ∃ c ∈ comments, p = (c.author, c.id) ∧
          matchesAny (pyLower c.body) approval_keywords = true := by
  induction comments with
  | nil => intro wa wr; simp [check_loop]
  | cons c rest ih =>
    intro wa wr
    rw [check_loop]
    have hskip : ∀ (wa' wr' : List String), wa' = wa →
        ((check_loop team api rest wa' wr').postedA.map
          (fun p => commentKey p.1 p.2)).Nodup ∧
        ∀ p ∈ (check_loop team api rest wa' wr').postedA,
          commentKey p.1 p.2 ∉ wa ∧
          ∃ c' ∈ c :: rest, p = (c'.author, c'.id) ∧
            matchesAny (pyLower c'.body) approval_keywords = true := by
      intro wa' wr' hwa'
      subst hwa'
      refine ⟨(ih wa' wr').1, fun p hp => ?_⟩
      obtain ⟨hni, c', hc', hsrc⟩ := (ih wa' wr').2 p hp
      exact ⟨hni, c', List.mem_cons_of_mem _ hc', hsrc⟩
    have hpost : ∀ wr' : List String,
        matchesAny (pyLower c.body) approval_keywords = true →
        ∀ hwa : wa.contains (commentKey c.author c.id) = false,
        (((check_loop team api rest (commentKey c.author c.id :: wa) wr').postedA.map
            (fun p => commentKey p.1 p.2)).Nodup →
          ((((c.author, c.id) ::
              (check_loop team api rest (commentKey c.author c.id :: wa) wr').postedA).map
            (fun p => commentKey p.1 p.2)).Nodup ∧
          ∀ p ∈ ((c.author, c.id) ::
              (check_loop team api rest (commentKey c.author c.id :: wa) wr').postedA),
            commentKey p.1 p.2 ∉ wa ∧
            ∃ c' ∈ c :: rest, p = (c'.author, c'.id) ∧
              matchesAny (pyLower c'.body) approval_keywords = true)) := by
      intro wr' happ hwa _
      obtain ⟨ihnd, ihmem⟩ := ih (commentKey c.author c.id :: wa) wr'
      constructor
      · simp only [List.map_cons, List.nodup_cons]
        refine ⟨?_, ihnd⟩
        intro hmm
        obtain ⟨p, hp, hkey⟩ := List.mem_map.mp hmm
        exact (ihmem p hp).1 (hkey ▸ List.mem_cons_self _ _)
      · intro p hp
        rcases List.mem_cons.mp hp with rfl | hp'
        · exact ⟨contains_false_not_mem hwa,
            c, List.mem_cons_self _ _, rfl, happ⟩
        · obtain ⟨hni, c', hc', hsrc⟩ := ihmem p hp'
          exact ⟨fun hin => hni (List.mem_cons_of_mem _ hin),
            c', List.mem_cons_of_mem _ hc', hsrc⟩
    by_cases h1 : (c.author == "github-actions") = true
    · rw [if_pos h1]; exact hskip wa wr rfl
    · rw [if_neg h1]
      dsimp only
      by_cases happ : matchesAny (pyLower c.body) approval_keywords = true
      · rw [if_pos happ]
        by_cases hteam : team ≠ []
        · rw [if_pos hteam]
          by_cases hmem : team.contains c.author = true
          · rw [if_pos hmem]; simp
          · rw [if_neg hmem]
            by_cases hwa : wa.contains (commentKey c.author c.id) = true
            · rw [if_pos hwa]; exact hskip wa wr rfl
            · rw [if_neg hwa]
              exact hpost wr happ (Bool.not_eq_true _ ▸ hwa)
                (ih (commentKey c.author c.id :: wa) wr).1
        · rw [if_neg hteam]
          by_cases hapi : api c.author = true
          · rw [if_pos hapi]; simp
          · rw [if_neg hapi]
            by_cases hwa : wa.contains (commentKey c.author c.id) = true
            · rw [if_pos hwa]; exact hskip wa wr rfl
            · rw [if_neg hwa]
              exact hpost wr happ (Bool.not_eq_true _ ▸ hwa)
                (ih (commentKey c.author c.id :: wa) wr).1
      · rw [if_neg happ]
        by_cases hrej : matchesAny (pyLower c.body) rejection_keywords = true
        · rw [if_pos hrej]
          by_cases hteam : team ≠ []
          · rw [if_pos hteam]
            by_cases hmem : team.contains c.author = true
            · rw [if_pos hmem]; simp
            · rw [if_neg hmem]
              by_cases hwr : wr.contains (commentKey c.author c.id) = true
              · rw [if_pos hwr]; exact hskip wa wr rfl
              · rw [if_neg hwr]
                exact hskip wa _ rfl
          · rw [if_neg hteam]
            by_cases hapi : api c.author = true
            · rw [if_pos hapi]; simp
            · rw [if_neg hapi]
              by_cases hwr : wr.contains (commentKey c.author c.id) = true
              · rw [if_pos hwr]; exact hskip wa wr rfl
              · rw [if_neg hwr]
                exact hskip wa _ rfl
        · rw [if_neg hrej]; exact hskip wa wr rfl

theorem check_loop_postedR_inv (team : List String) (api : String → Bool)
    (comments : List GComment) :
    ∀ wa wr : List String,
      ((check_loop team api comments wa wr).postedR.map
        (fun p => commentKey p.1 p.2)).Nodup ∧
      ∀ p ∈ (check_loop team api comments wa wr).postedR,
        commentKey p.1 p.2 ∉ wr ∧
        ∃ c ∈ comments, p = (c.author, c.id) ∧
          matchesAny (pyLower c.body) approval_keywords = false ∧
          matchesAny (pyLower c.body) rejection_keywords = true := by
  induction comments with
  | nil => intro wa wr; simp [check_loop]
  | cons c rest ih =>
    intro wa wr
    rw [check_loop]
    have hskip : ∀ (wa' wr' : List String), wr' = wr →
        ((check_loop team api rest wa' wr').postedR.map
          (fun p => commentKey p.1 p.2)).Nodup ∧
        ∀ p ∈ (check_loop team api rest wa' wr').postedR,
          commentKey p.1 p.2 ∉ wr ∧
          ∃ c' ∈ c :: rest, p = (c'.author, c'.id) ∧
            matchesAny (pyLower c'.body) approval_keywords = false ∧
            matchesAny (pyLower c'.body) rejection_keywords = true := by
      intro wa' wr' hwr'
      subst hwr'
      refine ⟨(ih wa' wr').1, fun p hp => ?_⟩
      obtain ⟨hni, c', hc', hsrc⟩ := (ih wa' wr').2 p hp
      exact ⟨hni, c', List.mem_cons_of_mem _ hc', hsrc⟩
    have hpost : ∀ wa' : List String,
        matchesAny (pyLower c.body) approval_keywords = false →
        matchesAny (pyLower c.body) rejection_keywords = true →
        ∀ hwr : wr.contains (commentKey c.author c.id) = false,
        ((((c.author, c.id) ::
            (check_loop team api rest wa' (commentKey c.author c.id :: wr)).postedR).map
          (fun p => commentKey p.1 p.2)).Nodup ∧
        ∀ p ∈ ((c.author, c.id) ::
            (check_loop team api rest wa' (commentKey c.author c.id :: wr)).postedR),
          commentKey p.1 p.2 ∉ wr ∧
          ∃ c' ∈ c :: rest, p = (c'.author, c'.id) ∧
            matchesAny (pyLower c'.body) approval_keywords = false ∧
            matchesAny (pyLower c'.body) rejection_keywords = true) := by
      intro wa' happ hrej hwr
      obtain ⟨ihnd, ihmem⟩ := ih wa' (commentKey c.author c.id :: wr)
      constructor
      · simp only [List.map_cons, List.nodup_cons]
        refine ⟨?_, ihnd⟩
        intro hmm
        obtain ⟨p, hp, hkey⟩ := List.mem_map.mp hmm
        exact (ihmem p hp).1 (hkey ▸ List.mem_cons_self _ _)
      · intro p hp
        rcases List.mem_cons.mp hp with rfl | hp'
        · exact ⟨contains_false_not_mem hwr,
            c, List.mem_cons_self _ _, rfl, happ, hrej⟩
        · obtain ⟨hni, c', hc', hsrc⟩ := ihmem p hp'
          exact ⟨fun hin => hni (List.mem_cons_of_mem _ hin),
            c', List.mem_cons_of_mem _ hc', hsrc⟩
    by_cases h1 : (c.author == "github-actions") = true
    · rw [if_pos h1]; exact hskip wa wr rfl
    · rw [if_neg h1]
      dsimp only
      by_cases happ : matchesAny (pyLower c.body) approval_keywords = true
      · rw [if_pos happ]
        by_cases hteam : team ≠ []
        · rw [if_pos hteam]
          by_cases hmem : team.contains c.author = true
          · rw [if_pos hmem]; simp
          · rw [if_neg hmem]
            by_cases hwa : wa.contains (commentKey c.author c.id) = true
            · rw [if_pos hwa]; exact hskip wa wr rfl
            · rw [if_neg hwa]; exact hskip _ wr rfl
        · rw [if_neg hteam]
          by_cases hapi : api c.author = true
          · rw [if_pos hapi]; simp
          · rw [if_neg hapi]
            by_cases hwa : wa.contains (commentKey c.author c.id) = true
            · rw [if_pos hwa]; exact hskip wa wr rfl
            · rw [if_neg hwa]; exact hskip _ wr rfl
      · rw [if_neg happ]
        by_cases hrej : matchesAny (pyLower c.body) rejection_keywords = true
        · rw [if_pos hrej]
          by_cases hteam : team ≠ []
          · rw [if_pos hteam]
            by_cases hmem : team.contains c.author = true
            · rw [if_pos hmem]; simp
            · rw [if_neg hmem]
              by_cases hwr : wr.contains (commentKey c.author c.id) = true
              · rw [if_pos hwr]; exact hskip wa wr rfl
              · rw [if_neg hwr]
                exact hpost wa (Bool.not_eq_true _ ▸ happ) hrej
                  (Bool.not_eq_true _ ▸ hwr)
          · rw [if_neg hteam]
            by_cases hapi : api c.author = true
            · rw [if_pos hapi]; simp
            · rw [if_neg hapi]
              by_cases hwr : wr.contains (commentKey c.author c.id) = true
              · rw [if_pos hwr]; exact hskip wa wr rfl
              · rw [if_neg hwr]
                exact hpost wa (Bool.not_eq_true _ ▸ happ) hrej
                  (Bool.not_eq_true _ ▸ hwr)
        · rw [if_neg hrej]; exact hskip wa wr rfl

theorem check_loop_warnsA (team : List String) (api : String → Bool)
    (comments : List GComment) :
    ∀ wa wr : List String,
      (check_loop team api comments wa wr).verdict = none →
      ∀ c ∈ comments, c.author ≠ "github-actions" →
        matchesAny (pyLower c.body) approval_keywords = true →
        is_authorized team api c.author = false →
        commentKey c.author c.id ∈ wa ∨
          ∃ p ∈ (check_loop team api comments wa wr).postedA,
            commentKey p.1 p.2 = commentKey c.author c.id := by
  induction comments with
  | nil => intro wa wr _ c hc; simp at hc
  | cons c0 rest ih =>
    intro wa wr hv c hc hbot happ hauth
    rw [check_loop] at hv ⊢
    by_cases h1 : (c0.author == "github-actions") = true
    · rw [if_pos h1] at hv ⊢
      rcases List.mem_cons.mp hc with rfl | hc'
      · exact absurd (by simpa using h1) hbot
      · exact ih wa wr hv c hc' hbot happ hauth
    · rw [if_neg h1] at hv ⊢
      by_cases happ0 : matchesAny (pyLower c0.body) approval_keywords = true
      · rw [if_pos happ0] at hv ⊢
        by_cases hteam : team ≠ []
        · rw [if_pos hteam] at hv ⊢
          by_cases hmem : team.contains c0.author = true
          · rw [if_pos hmem] at hv; exact absurd hv (by simp)
          · rw [if_neg hmem] at hv ⊢
            by_cases hwa : wa.contains (commentKey c0.author c0.id) = true
            · rw [if_pos hwa] at hv ⊢
              rcases List.mem_cons.mp hc with rfl | hc'
              · exact Or.inl (List.elem_iff.mp hwa)
              · exact ih wa wr hv c hc' hbot happ hauth
            · rw [if_neg hwa] at hv ⊢
              rcases List.mem_cons.mp hc with rfl | hc'
              · exact Or.inr ⟨(c.author, c.id), List.mem_cons_self _ _, rfl⟩
              · rcases ih (commentKey c0.author c0.id :: wa) wr hv c hc'
                  hbot happ hauth with hin | ⟨p, hp, hkey⟩
                · rcases List.mem_cons.mp hin with heq | hin'
                  · exact Or.inr ⟨(c0.author, c0.id), List.mem_cons_self _ _, heq.symm⟩
                  · exact Or.inl hin'
                · exact Or.inr ⟨p, List.mem_cons_of_mem _ hp, hkey⟩
        · rw [if_neg hteam] at hv ⊢
          by_cases hapi : api c0.author = true
          · rw [if_pos hapi] at hv; exact absurd hv (by simp)
          · rw [if_neg hapi] at hv ⊢
            by_cases hwa : wa.contains (commentKey c0.author c0.id) = true
            · rw [if_pos hwa] at hv ⊢
              rcases List.mem_cons.mp hc with rfl | hc'
              · exact Or.inl (List.elem_iff.mp hwa)
              · exact ih wa wr hv c hc' hbot happ hauth
            · rw [if_neg hwa] at hv ⊢
              rcases List.mem_cons.mp hc with rfl | hc'
              · exact Or.inr ⟨(c.author, c.id), List.mem_cons_self _ _, rfl⟩
              · rcases ih (commentKey c0.author c0.id :: wa) wr hv c hc'
                  hbot happ hauth with hin | ⟨p, hp, hkey⟩
                · rcases List.mem_cons.mp hin with heq | hin'
                  · exact Or.inr ⟨(c0.author, c0.id), List.mem_cons_self _ _, heq.symm⟩
                  · exact Or.inl hin'
                · exact Or.inr ⟨p, List.mem_cons_of_mem _ hp, hkey⟩
      · rw [if_neg happ0] at hv ⊢
        by_cases hrej0 : matchesAny (pyLower c0.body) rejection_keywords = true
        · rw [if_pos hrej0] at hv ⊢
          by_cases hteam : team ≠ []
          · rw [if_pos hteam] at hv ⊢
            by_cases hmem : team.contains c0.author = true
            · rw [if_pos hmem] at hv; exact absurd hv (by simp)
            · rw [if_neg hmem] at hv ⊢
              by_cases hwr : wr.contains (commentKey c0.author c0.id) = true
              · rw [if_pos hwr] at hv ⊢
                rcases List.mem_cons.mp hc with rfl | hc'
                · exact absurd happ happ0
                · exact ih wa wr hv c hc' hbot happ hauth
              · rw [if_neg hwr] at hv ⊢
                rcases List.mem_cons.mp hc with rfl | hc'
                · exact absurd happ happ0
                · exact ih wa _ hv c hc' hbot happ hauth
          · rw [if_neg hteam] at hv ⊢
            by_cases hapi : api c0.author = true
            · rw [if_pos hapi] at hv; exact absurd hv (by simp)
            · rw [if_neg hapi] at hv ⊢
              by_cases hwr : wr.contains (commentKey c0.author c0.id) = true
              · rw [if_pos hwr] at hv ⊢
                rcases List.mem_cons.mp hc with rfl | hc'
                · exact absurd happ happ0
                · exact ih wa wr hv c hc' hbot happ hauth
              · rw [if_neg hwr] at hv ⊢
                rcases List.mem_cons.mp hc with rfl | hc'
                · exact absurd happ happ0
                · exact ih wa _ hv c hc' hbot happ hauth
        · rw [if_neg hrej0] at hv ⊢
          rcases List.mem_cons.mp hc with rfl | hc'
          · exact absurd happ happ0
          · exact ih wa wr hv c hc' hbot happ hauth

theorem check_loop_warnsR (team : List String) (api : String → Bool)
    (comments : List GComment) :
    ∀ wa wr : List String,
      (check_loop team api comments wa wr).verdict = none →
      ∀ c ∈ comments, c.author ≠ "github-actions" →
        matchesAny (pyLower c.body) approval_keywords = false →
        matchesAny (pyLower c.body) rejection_keywords = true →
        is_authorized team api c.author = false →
        commentKey c.author c.id ∈ wr ∨
          ∃ p ∈ (check_loop team api comments wa wr).postedR,
            commentKey p.1 p.2 = commentKey c.author c.id := by
  induction comments with
  | nil => intro wa wr _ c hc; simp at hc
  | cons c0 rest ih =>
    intro wa wr hv c hc hbot hnapp hrej hauth
    rw [check_loop] at hv ⊢
    by_cases h1 : (c0.author == "github-actions") = true
    · rw [if_pos h1] at hv ⊢
      rcases List.mem_cons.mp hc with rfl | hc'
      · exact absurd (by simpa using h1) hbot
      · exact ih wa wr hv c hc' hbot hnapp hrej hauth
    · rw [if_neg h1] at hv ⊢
      by_cases happ0 : matchesAny (pyLower c0.body) approval_keywords = true
      · rw [if_pos happ0] at hv ⊢
        by_cases hteam : team ≠ []
        · rw [if_pos hteam] at hv ⊢
          by_cases hmem : team.contains c0.author = true
          · rw [if_pos hmem] at hv; exact absurd hv (by simp)
          · rw [if_neg hmem] at hv ⊢
            by_cases hwa : wa.contains (commentKey c0.author c0.id) = true
            · rw [if_pos hwa] at hv ⊢
              rcases List.mem_cons.mp hc with rfl | hc'
              · exact absurd happ0 (by simp [hnapp])
              · exact ih wa wr hv c hc' hbot hnapp hrej hauth
            · rw [if_neg hwa] at hv ⊢
              rcases List.mem_cons.mp hc with rfl | hc'
              · exact absurd happ0 (by simp [hnapp])
              · exact ih _ wr hv c hc' hbot hnapp hrej hauth
        · rw [if_neg hteam] at hv ⊢
          by_cases hapi : api c0.author = true
          · rw [if_pos hapi] at hv; exact absurd hv (by simp)
          · rw [if_neg hapi] at hv ⊢
            by_cases hwa : wa.contains (commentKey c0.author c0.id) = true
            · rw [if_pos hwa] at hv ⊢
              rcases List.mem_cons.mp hc with rfl | hc'
              · exact absurd happ0 (by simp [hnapp])
              · exact ih wa wr hv c hc' hbot hnapp hrej hauth
            · rw [if_neg hwa] at hv ⊢
              rcases List.mem_cons.mp hc with rfl | hc'
              · exact absurd happ0 (by simp [hnapp])
              · exact ih _ wr hv c hc' hbot hnapp hrej hauth
      · rw [if_neg happ0] at hv ⊢
        by_cases hrej0 : matchesAny (pyLower c0.body) rejection_keywords = true
        · rw [if_pos hrej0] at hv ⊢
          by_cases hteam : team ≠ []
          · rw [if_pos hteam] at hv ⊢
            by_cases hmem : team.contains c0.author = true
            · rw [if_pos hmem] at hv; exact absurd hv (by simp)
            · rw [if_neg hmem] at hv ⊢
              by_cases hwr : wr.contains (commentKey c0.author c0.id) = true
              · rw [if_pos hwr] at hv ⊢
                rcases List.mem_cons.mp hc with rfl | hc'
                · exact Or.inl (List.elem_iff.mp hwr)
                · exact ih wa wr hv c hc' hbot hnapp hrej hauth
              · rw [if_neg hwr] at hv ⊢
                rcases List.mem_cons.mp hc with rfl | hc'
                · exact Or.inr ⟨(c.author, c.id), List.mem_cons_self _ _, rfl⟩
                · rcases ih wa (commentKey c0.author c0.id :: wr) hv c hc'
                    hbot hnapp hrej hauth with hin | ⟨p, hp, hkey⟩
                  · rcases List.mem_cons.mp hin with heq | hin'
                    · exact Or.inr ⟨(c0.author, c0.id), List.mem_cons_self _ _, heq.symm⟩
                    · exact Or.inl hin'
                  · exact Or.inr ⟨p, List.mem_cons_of_mem _ hp, hkey⟩
          · rw [if_neg hteam] at hv ⊢
            by_cases hapi : api c0.author = true
            · rw [if_pos hapi] at hv; exact absurd hv (by simp)
            · rw [if_neg hapi] at hv ⊢
              by_cases hwr : wr.contains (commentKey c0.author c0.id) = true
              · rw [if_pos hwr] at hv ⊢
                rcases List.mem_cons.mp hc with rfl | hc'
                · exact Or.inl (List.elem_iff.mp hwr)
                · exact ih wa wr hv c hc' hbot hnapp hrej hauth
              · rw [if_neg hwr] at hv ⊢
                rcases List.mem_cons.mp hc with rfl | hc'
                · exact Or.inr ⟨(c.author, c.id), List.mem_cons_self _ _, rfl⟩
                · rcases ih wa (commentKey c0.author c0.id :: wr) hv c hc'
                    hbot hnapp hrej hauth with hin | ⟨p, hp, hkey⟩
                  · rcases List.mem_cons.mp hin with heq | hin'
                    · exact Or.inr ⟨(c0.author, c0.id), List.mem_cons_self _ _, heq.symm⟩
                    · exact Or.inl hin'
                  · exact Or.inr ⟨p, List.mem_cons_of_mem _ hp, hkey⟩
        · rw [if_neg hrej0] at hv ⊢
          rcases List.mem_cons.mp hc with rfl | hc'
          · exact absurd hrej hrej0
          · exact ih wa wr hv c hc' hbot hnapp hrej hauth

/-- C4: the approval controller returns a terminal verdict only for a
comment authored by an approver-group member (resolved list, or the
membership API when the list is unavailable); matching comments from
non-members never end the scan and instead trigger a warning comment —
while the loop keeps polling (no verdict), every matching non-member
comment has a warning posted for its `(author, comment id)` pair unless
that pair was already warned — with at most one posted warning per pair
and none for a pair already warned about. -/
theorem approval_verdict_only_for_members (team : List String)
    (api : String → Bool) (trigger : Option Int)
    (allComments : List GComment) (wa wr : List String)
    (hid : (allComments.map GComment.id).Nodup) :
    (∀ v u, (check_for_approval_or_rejection team api trigger allComments wa wr).verdict =
        some (v, u) → is_authorized team api u = true) ∧
    ((check_for_approval_or_rejection team api trigger allComments wa wr).postedA ++
      (check_for_approval_or_rejection team api trigger allComments wa wr).postedR).Nodup ∧
    (∀ p ∈ (check_for_approval_or_rejection team api trigger allComments wa wr).postedA,
      commentKey p.1 p.2 ∉ wa) ∧
    (∀ p ∈ (check_for_approval_or_rejection team api trigger allComments wa wr).postedR,
      commentKey p.1 p.2 ∉ wr) ∧
    ((check_for_approval_or_rejection team api trigger allComments wa wr).verdict = none →
      ∀ c ∈ get_comments_after_timestamp trigger allComments,
        c.author ≠ "github-actions" →
        is_authorized team api c.author = false →
        ((matchesAny (pyLower c.body) approval_keywords = true →
          commentKey c.author c.id ∈ wa ∨
            ∃ p ∈ (check_for_approval_or_rejection team api trigger allComments wa wr).postedA,
              commentKey p.1 p.2 = commentKey c.author c.id) ∧
         (matchesAny (pyLower c.body) approval_keywords = false →
          matchesAny (pyLower c.body) rejection_keywords = true →
          commentKey c.author c.id ∈ wr ∨
            ∃ p ∈ (check_for_approval_or_rejection team api trigger allComments wa wr).postedR,
              commentKey p.1 p.2 = commentKey c.author c.id))) := by
  have hfc : ((get_comments_after_timestamp trigger allComments).map GComment.id).Nodup := by
    cases trigger with
    | none => simp [get_comments_after_timestamp]
    | some t =>
      exact List.Sublist.nodup
        (List.Sublist.map GComment.id (List.filter_sublist _)) hid
  obtain ⟨hndA, hmemA⟩ :=
    check_loop_postedA_inv team api (get_comments_after_timestamp trigger allComments) wa wr
  obtain ⟨hndR, hmemR⟩ :=
    check_loop_postedR_inv team api (get_comments_after_timestamp trigger allComments) wa wr
  refine ⟨fun v u h => check_loop_verdict_authorized team api _ wa wr v u h, ?_,
    fun p hp => (hmemA p hp).1, fun p hp => (hmemR p hp).1,
    fun hv c hc hbot hauth =>
      ⟨fun happ => check_loop_warnsA team api _ wa wr hv c hc hbot happ hauth,
       fun hnapp hrej =>
        check_loop_warnsR team api _ wa wr hv c hc hbot hnapp hrej hauth⟩⟩
  rw [List.nodup_append]
  refine ⟨hndA.of_map, hndR.of_map, fun p hpA hpR => ?_⟩
  obtain ⟨-, cA, hcA, hpa, happA⟩ := hmemA p hpA
  obtain ⟨-, cR, hcR, hpr, happR, -⟩ := hmemR p hpR
  have hidAR : cA.id = cR.id := by
    have := hpa ▸ hpr
    exact (Prod.mk.injEq .. ▸ this).2
  have : cA = cR := List.inj_on_of_nodup_map hfc hcA hcR hidAR
  rw [this, happR] at happA
  exact Bool.false_ne_true happA

/-- Witness for `approval_verdict_only_for_members`: a single
`approved` comment by non-member bob yields no verdict, and a warning
for the pair `(bob, i1)` is actually posted. -/
theorem approval_verdict_only_for_members_witness :
    ((check_for_approval_or_rejection ["alice"] (fun _ => false) (some 0)
        [⟨"i1", "bob", "approved", some 5⟩] [] []).postedA ++
      (check_for_approval_or_rejection ["alice"] (fun _ => false) (some 0)
        [⟨"i1", "bob", "approved", some 5⟩] [] []).postedR).Nodup ∧
    (commentKey "bob" "i1" ∈ ([] : List String) ∨
      ∃ p ∈ (check_for_approval_or_rejection ["alice"] (fun _ => false) (some 0)
          [⟨"i1", "bob", "approved", some 5⟩] [] []).postedA,
        commentKey p.1 p.2 = commentKey "bob" "i1") :=
  ⟨(approval_verdict_only_for_members ["alice"] (fun _ => false) (some 0)
      [⟨"i1", "bob", "approved", some 5⟩] [] [] (by decide)).2.1,
   ((approval_verdict_only_for_members ["alice"] (fun _ => false) (some 0)
      [⟨"i1", "bob", "approved", some 5⟩] [] [] (by decide)).2.2.2.2
      (by decide) ⟨"i1", "bob", "approved", some 5⟩ (by decide)
      (by decide) (by decide)).1 (by decide)⟩

/-!
## `check_duplicate_runs.py`

`check_duplicate_runs` imports `GitHubUtils` from `common/gh_utils.py`
and its `find_existing_tracking_issue` opens with
`result = GitHubUtils.list_issues(state="open", label="distributed-lock",
limit=50)`.  No `list_issues` method is defined on that class (nor
anywhere else in the scripts), so Python raises `AttributeError` at
that attribute lookup; nothing catches it (the local `try` covers only
the JSON parse further down, and `main` has no handler), so the process
dies with a traceback — exit code 1 — before any listing is read or any
comment is posted.  The embedding models the attribute lookup
explicitly against the method names the class does define, and the
would-be listing as an oracle that is only consulted when the lookup
succeeds.
-/

/-- The static methods defined on `common/gh_utils.GitHubUtils`.
`list_issues` is not among them. -/
def gitHubUtilsMethods : List String :=
  ["get_env_var", "_run_gh_command", "get_pr_author", "comment_on_pr",
   "update_pr_branch", "search_issue", "add_comment", "create_label",
   "create_issue", "get_pr_comments", "get_workflow_run_status",
   "get_pr_branch_name", "get_pr_details", "merge_pr", "trigger_ci_comment",
   "get_branch_protection", "is_branch_protected", "get_all_comments",
   "find_comment_by_id", "is_team_member", "get_running_workflows",
   "trigger_workflow", "close_issue_with_comment"]

structure IssueSummary where
  title : String
  number : Int
  deriving DecidableEq, Repr

/-- `find_existing_tracking_issue`: the `GitHubUtils.list_issues(...)`
attribute lookup raises when absent; otherwise the first open
`distributed-lock` issue whose title starts with the tracking pattern
would be returned (`none` listing = failed call or JSON error). -/
def find_existing_tracking_issue (listing : Option (List IssueSummary))
    (original_issue_number : Int) : Except String (Option Int) :=
  if gitHubUtilsMethods.contains "list_issues" then
    .ok (match listing with
      | none => none
      | some issues =>
        issues.findSome? (fun issue =>
          if strStarts issue.title
              ("[MERGE QUEUE TRACKING] Issue #" ++ toString original_issue_number)
          then some issue.number else none))
  else .error "AttributeError: type object 'GitHubUtils' has no attribute 'list_issues'"

/-- The duplicate-prevention comment body `post_duplicate_message`
would post, referencing the existing tracking issue. -/
def duplicate_message (existing_tracking_issue : Int) : String :=
  "⚠️ **Duplicate Merge Queue Request Detected**\n\n" ++
  "A merge queue process is already running for this issue.\n\n" ++
  "**Tracking Issue**: #" ++ toString existing_tracking_issue ++ "\n" ++
  "**Action Required**: Wait for the current process to complete.\n\n" ++
  "**Monitor Progress**: Check the tracking issue above for status updates.\n\n" ++
  "**Retry**: Once the current process completes, you can comment `begin-merge` again if needed."

/-- `check_duplicate_runs.main` on a valid issue number: either an
uncaught exception (the process dies with exit code 1 and posts
nothing) or a normal return of the exit code and the `(issue, body)`
comments posted.  The `if existing_tracking_issue:` truthiness test
makes a tracking issue numbered 0 fall through. -/
def check_duplicate_main (issue_number : Int)
    (listing : Option (List IssueSummary)) :
    Except String (Int × List (Int × String)) :=
  match find_existing_tracking_issue listing issue_number with
  | .error e => .error e
  | .ok (some existing) =>
      if existing = 0 then .ok (0, [])
      else .ok (1, [(issue_number, duplicate_message existing)])
  | .ok none => .ok (0, [])

/-- C5: `check_duplicate_runs` always dies with `AttributeError` at the
`GitHubUtils.list_issues` call — in particular at the claim's scenario
(an open TrackingItem for the same originator) no duplicate-prevention
comment is posted and the process exits 1 via an uncaught exception,
not 0. -/
theorem duplicate_check_raises_attribute_error :
    ∀ (issue_number : Int) (listing : Option (List IssueSummary)),
      check_duplicate_main issue_number listing =
        .error "AttributeError: type object 'GitHubUtils' has no attribute 'list_issues'" := by
  intro issue_number listing
  rfl

/-!
## `validate_prs.get_required_approvals`

The branch-protection lookup (`gh api repos/{repo}/branches/{branch}/protection`
plus the JSON parse of its stdout) is modelled by `ProtectionLookup`:
`reqFailed` = the command failed (403, 404, network), `parseFailed` =
`json.JSONDecodeError`, `parsed nonempty count` = parsed data with
`required_pull_request_reviews.required_approving_review_count = count`
(0 when the keys are missing) and `nonempty` the truthiness of the
parsed dict.
-/

inductive ProtectionLookup
  | reqFailed
  | parseFailed
  | parsed (nonempty : Bool) (count : Int)
  deriving DecidableEq, Repr

/-- The fall-through of `get_required_approvals` once the manual input
is absent or unparseable. -/
def approvals_from_protection : ProtectionLookup → Int
  | .reqFailed => 1
  | .parseFailed => 1
  | .parsed nonempty count => if count = 0 ∧ nonempty = false then 1 else count

/-- `get_required_approvals`: use `int(manual_approvals.strip())`
whenever the input is non-empty, non-blank and parses; otherwise fall
through to branch protection. -/
def get_required_approvals (manual_approvals : String)
    (protection : ProtectionLookup) : Int :=
  if manual_approvals.data ≠ [] ∧ pyStrip manual_approvals ≠ [] then
    match pythonIntAux (pyStrip manual_approvals) with
    | some approvals => approvals
    | none => approvals_from_protection protection
  else approvals_from_protection protection

/-- C6 counterexample: the override `"0"` is not treated as absent; it
is returned as the required count even though branch protection says 3. -/
theorem override_zero_is_used :
    get_required_approvals "0" (ProtectionLookup.parsed true 3) = 0 ∧
      (0 : Int) ≠ 3 := by
  decide

theorem pythonInt_some_nonblank {s : String} {n : Int}
    (h : pythonInt s = some n) : s.data ≠ [] ∧ pyStrip s ≠ [] := by
  have hs : pyStrip s ≠ [] := by
    intro he
    rw [pythonInt, he] at h
    exact Option.noConfusion h
  refine ⟨?_, hs⟩
  intro hd
  apply hs
  simp [pyStrip, hd]

/-- C6 (amended): the required-approval count equals the approvals
override whenever it parses to an integer — including `"0"` and
negative values, which are used as-is rather than treated as absent —
and only an empty, blank or non-numeric override falls through to the
branch-protection lookup, which defaults to 1 when protection is absent
or inaccessible. -/
theorem required_approvals_characterization (manual_approvals : String)
    (protection : ProtectionLookup) :
    (∀ n : Int, pythonInt manual_approvals = some n →
      get_required_approvals manual_approvals protection = n) ∧
    (pythonInt manual_approvals = none →
      get_required_approvals manual_approvals protection =
        approvals_from_protection protection) ∧
    approvals_from_protection ProtectionLookup.reqFailed = 1 ∧
    approvals_from_protection (ProtectionLookup.parsed false 0) = 1 := by
  refine ⟨fun n h => ?_, fun h => ?_, rfl, by simp [approvals_from_protection]⟩
  · obtain ⟨hd, hs⟩ := pythonInt_some_nonblank h
    rw [pythonInt] at h
    rw [get_required_approvals, if_pos ⟨hd, hs⟩, h]
  · rw [pythonInt] at h
    rw [get_required_approvals]
    split_ifs with hc
    · rw [h]
    · rfl

/-- Witness for `required_approvals_characterization`: override `"0"`
yields 0, and a blank override falls through to the default 1. -/
theorem required_approvals_characterization_witness :
    get_required_approvals "0" (ProtectionLookup.parsed true 3) = 0 ∧
      get_required_approvals " " ProtectionLookup.reqFailed =
        approvals_from_protection ProtectionLookup.reqFailed :=
  ⟨(required_approvals_characterization "0" (ProtectionLookup.parsed true 3)).1
      0 (by decide),
    (required_approvals_characterization " " ProtectionLookup.reqFailed).2.1
      (by decide)⟩

/-!
## `gh_utils.is_branch_protected` and `merge_pr`'s branch-deletion flag

`BranchProtApi` models the outcome of the protection query as consumed
by `is_branch_protected`: a failed command (403, 404, network), a JSON
parse error of its stdout, an error-shaped JSON response (`message` +
`status` keys), or actual protection data (with the truthiness of the
parsed dict).
-/

inductive BranchProtApi
  | requestFailed
  | parseError
  | errorResponse
  | protectionData (nonempty : Bool)
  deriving DecidableEq, Repr

/-- `GitHubUtils.is_branch_protected`: any failure — including a 403 on
the protection endpoint — yields `False` (branch treated as not
protected); only parsed protection data can yield `True`. -/
def is_branch_protected : BranchProtApi → Bool
  | .requestFailed => false
  | .parseError => false
  | .errorResponse => false
  | .protectionData nonempty => nonempty

/-- The `delete_branch` flag computed by `merge_pr`: `none` for the
branch name models a failed `get_pr_branch_name` call or unparseable
output (safe default: keep). -/
def merge_pr_delete_branch (branchName : Option String)
    (protection : BranchProtApi) : Bool :=
  match branchName with
  | none => false
  | some branch_name =>
    if branch_name ≠ "unknown-branch" then !is_branch_protected protection
    else false

/-- C7 counterexample: when the protection query for the (known) head
branch fails — e.g. with a 403 — the merge is issued with
`delete_branch = true`, not `false` as claimed. -/
theorem protection_failure_deletes_branch :
    ¬ (merge_pr_delete_branch (some "feature-1") BranchProtApi.requestFailed = false) := by
  decide

/-- C7 (amended): a failed branch-protection query (including 403) makes
`is_branch_protected` report not-protected, so the merge deletes the
head branch whenever its name was resolved; the branch is kept exactly
when the name is unknown or the branch is reported protected. -/
theorem delete_branch_characterization (branchName : Option String)
    (protection : BranchProtApi) :
    (is_branch_protected BranchProtApi.requestFailed = false) ∧
    (merge_pr_delete_branch branchName protection = true ↔
      ∃ name, branchName = some name ∧ name ≠ "unknown-branch" ∧
        is_branch_protected protection = false) := by
  refine ⟨rfl, ?_⟩
  cases branchName with
  | none => simp [merge_pr_delete_branch]
  | some name =>
    by_cases hn : name = "unknown-branch" <;>
      simp [merge_pr_delete_branch, hn]

/-!
## `generate_summary.py`
-/

/-- The `MergeQueueData` dataclass parsed from the environment. -/
structure SummaryData where
  default_branch : String
  required_approvals : String
  total_requested : Nat
  submitter : String
  original_issue_number : String
  merged : List String
  unmergeable : List String
  failed_update : List String
  failed_ci : List String
  timeout : List String
  startup_timeout : List String
  failed_merge : List String
  deriving DecidableEq, Repr

/-- All outcome buckets of a run, concatenated. -/
def SummaryData.allOutcomes (d : SummaryData) : List String :=
  d.merged ++ d.unmergeable ++ d.failed_update ++ d.failed_ci ++
    d.timeout ++ d.startup_timeout ++ d.failed_merge

/-- `should_close_issue`: close only when at least one PR was requested
and the buckets show at least one processed PR. -/
def should_close_issue (d : SummaryData) : Bool :=
  if d.total_requested = 0 then false
  else
    let total_processed := d.merged.length + d.unmergeable.length +
      d.failed_update.length + d.failed_ci.length + d.timeout.length +
      d.startup_timeout.length + d.failed_merge.length
    if 0 < total_processed then true else false

/-- The close decision of `generate_summary.main`: the originator is
closed exactly when an originator id was recorded, the summary post to
it succeeded (`postOk`; on a failed post `post_summary_to_original_issue`
raises, `main`'s handler exits 1, and `close_original_issue` is never
reached), and `should_close_issue` holds. -/
def generate_summary_closes (d : SummaryData) (postOk : Bool) : Bool :=
  if d.original_issue_number ≠ "" then
    if postOk then should_close_issue d else false
  else false

/-- C8 counterexample: a run with an Outcome (PR 101 merged) whose
summary post fails aborts before `close_original_issue`, so the
originator stays open although a candidate produced an Outcome. -/
theorem failed_post_leaves_originator_open :
    SummaryData.allOutcomes
        ⟨"main", "1", 1, "sam", "99", ["101"], [], [], [], [], [], []⟩ ≠ [] ∧
      generate_summary_closes
        ⟨"main", "1", 1, "sam", "99", ["101"], [], [], [], [], [], []⟩ false = false := by
  decide

/-- C8 (amended): in a run with a recorded originator whose outcomes
all stem from requested candidates, *provided the summary post to the
originator succeeds*, the reporter closes the originator iff at least
one candidate produced an Outcome in any bucket; when the post fails
the run aborts with an error before closing and the originator is left
open. -/
theorem originator_closed_iff_some_outcome (d : SummaryData)
    (hissue : d.original_issue_number ≠ "")
    (hreq : d.allOutcomes ≠ [] → 0 < d.total_requested) :
    (generate_summary_closes d true = true ↔ d.allOutcomes ≠ []) ∧
      generate_summary_closes d false = false := by
  refine ⟨?_, by simp [generate_summary_closes, hissue]⟩
  have hlen : d.allOutcomes ≠ [] ↔
      0 < d.merged.length + d.unmergeable.length + d.failed_update.length +
        d.failed_ci.length + d.timeout.length + d.startup_timeout.length +
        d.failed_merge.length := by
    rw [← List.length_pos, SummaryData.allOutcomes]
    simp [List.length_append]
    omega
  have hreq2 : 0 < d.merged.length + d.unmergeable.length + d.failed_update.length +
      d.failed_ci.length + d.timeout.length + d.startup_timeout.length +
      d.failed_merge.length → 0 < d.total_requested :=
    fun h => hreq (hlen.mpr h)
  rw [generate_summary_closes, if_pos hissue, if_pos rfl, should_close_issue, hlen]
  by_cases h0 : d.total_requested = 0
  · rw [if_pos h0]
    simp only [Bool.false_eq_true, false_iff, not_lt]
    by_contra hlt
    exact absurd (hreq2 (by omega)) (by omega)
  · rw [if_neg h0]
    dsimp only
    split_ifs with hN
    · simp [hN]
    · simp [hN]

/-- Witness for `originator_closed_iff_some_outcome`: one requested and
merged candidate closes the originator when the post succeeds, and the
same run with a failed post leaves it open. -/
theorem originator_closed_iff_some_outcome_witness :
    (generate_summary_closes
        ⟨"main", "1", 1, "sam", "99", ["101"], [], [], [], [], [], []⟩ true = true ↔
      SummaryData.allOutcomes
        ⟨"main", "1", 1, "sam", "99", ["101"], [], [], [], [], [], []⟩ ≠ []) ∧
      generate_summary_closes
        ⟨"main", "1", 1, "sam", "99", ["101"], [], [], [], [], [], []⟩ false = false :=
  originator_closed_iff_some_outcome
    ⟨"main", "1", 1, "sam", "99", ["101"], [], [], [], [], [], []⟩
    (by decide) (fun _ => by decide)

/-!
## One outcome bucket per candidate (validator + merge loop)
-/

end MergeQueue
